import Mathlib

/-!
Verification of the communication-profiling and metric-reduction core of
the Cubework benchmark harness.

The embedding below is a shallow model of:
  * `cubework/utils/profiling/communication.py` — `CommProfiler`,
    `CommHandler`, and the five intercepted collectives
    (`all_reduce`, `reduce_scatter`, `all_gather`, `broadcast`, `reduce`);
  * `benchmark/train.py` — the data-parallel sum/mean helpers
    `_data_parallel_sum` / `_data_parallel_mean`;
  * `cubework/module/metric/metrics.py` — the `Accuracy` and `Perplexity`
    metric accumulators.

Python mutation is rendered as explicit state passing: a method that
mutates `self` becomes a function returning the updated state.  Wall-clock
timestamps (`time.time()`) are passed in as explicit rational parameters.
Tensors enter the model only through the quantities the code actually
reads from them: `element_size() * numel()` (bytes) for the profiler, and
scalar values for the metrics.  Python float arithmetic is modelled over
`ℚ`, except where IEEE non-finite results matter (`TorchScalar` below).
-/

/-- State of `CommProfiler` (communication.py).  `running_ops` is an
integer count of in-flight collectives, `start_time` the optional
timestamp of the currently open busy window. -/
structure CommProfiler where
  running_ops : ℤ
  total_time : ℚ
  total_vol : ℚ
  total_cnt : ℕ
  start_time : Option ℚ
deriving DecidableEq, Repr

/-- The state produced by `CommProfiler.reset()` (also `__init__`):
every counter zeroed and no open window. -/
def CommProfiler.init : CommProfiler :=
  { running_ops := 0, total_time := 0, total_vol := 0, total_cnt := 0, start_time := none }

/-- `CommProfiler.reset()`: zeroes all fields of the session. -/
def CommProfiler.reset (_p : CommProfiler) : CommProfiler :=
  CommProfiler.init

/-- `CommProfiler.new(vol)` at wall-clock time `t`: one more running op,
one more counted collective, `vol` added to the volume, and the window
start stamped if no window is open (`if self.start_time is None`). -/
def CommProfiler.new (p : CommProfiler) (vol : ℚ) (t : ℚ) : CommProfiler :=
  { p with
    running_ops := p.running_ops + 1,
    total_cnt := p.total_cnt + 1,
    total_vol := p.total_vol + vol,
    start_time := match p.start_time with
      | none => some t
      | some s => some s }

/-- `CommProfiler.finish()` at wall-clock time `t`: decrement
`running_ops`; when it reaches zero, add `t - start_time` to
`total_time` and clear `start_time`.  In Python, reaching zero with
`start_time is None` raises a `TypeError` (`time.time() - None`); the
model returns `none` there. -/
def CommProfiler.finish (p : CommProfiler) (t : ℚ) : Option CommProfiler :=
  let r := p.running_ops - 1
  if r = 0 then
    match p.start_time with
    | none => none
    | some s =>
        some { p with running_ops := r, total_time := p.total_time + (t - s), start_time := none }
  else
    some { p with running_ops := r }

/-- Whether a process-wide collective entry point (`dist.all_reduce`, ...)
is currently the original torch binding or a profiling wrapper. -/
inductive PatchState where
  | original
  | profiled
deriving DecidableEq, Repr

/-- The five process-wide collective entry points monkey-patched by
`CommProfiler.start()` / restored by `CommProfiler.stop()`. -/
structure DistBindings where
  all_reduce : PatchState
  all_gather : PatchState
  reduce_scatter : PatchState
  broadcast : PatchState
  reduce : PatchState
deriving DecidableEq, Repr

/-- All five entry points bound to the original torch implementations. -/
def DistBindings.allOriginal : DistBindings :=
  ⟨.original, .original, .original, .original, .original⟩

/-- All five entry points bound to the profiling wrappers. -/
def DistBindings.allProfiled : DistBindings :=
  ⟨.profiled, .profiled, .profiled, .profiled, .profiled⟩

/-- `CommProfiler.start()`: rebinds the five collective entry points to
the profiling wrappers.  It reads nothing from the session state. -/
def CommProfiler.start (_p : CommProfiler) (_d : DistBindings) : DistBindings :=
  DistBindings.allProfiled

/-- `CommProfiler.stop()`: restores the five original entry points.  The
Python method body contains no `return` statement, so its value is
`None` — modelled as `none : Option (ℕ × ℚ × ℚ)` in the slot where a
`(total_cnt, total_vol, total_time)` triple could have been returned. -/
def CommProfiler.stop (_p : CommProfiler) (_d : DistBindings) :
    DistBindings × Option (ℕ × ℚ × ℚ) :=
  (DistBindings.allOriginal, none)

/-- The accumulated `(total_cnt, total_vol, total_time)` triple of a
session, as the training loop expects to receive it from `stop()`. -/
def CommProfiler.totals (p : CommProfiler) : ℕ × ℚ × ℚ :=
  (p.total_cnt, p.total_vol, p.total_time)

/-- Python tuple unpacking `_, comm_vol, comm_time = comm_profiler.stop()`
(train.py): unpacking `None` raises a `TypeError`. -/
def unpackTriple : Option (ℕ × ℚ × ℚ) → Except String (ℕ × ℚ × ℚ)
  | none => .error "TypeError: cannot unpack non-iterable NoneType object"
  | some v => .ok v

/-- `CommHandler`: wraps an in-flight asynchronous collective.  In the
state-passing model it carries the session state as of issue time;
`wait()` performs `self.work.wait()` and then `self.prof.finish()` at
the completion time. -/
structure CommHandler where
  prof : CommProfiler
deriving DecidableEq, Repr

/-- `CommHandler.wait()` completing at wall-clock time `tDone`. -/
def CommHandler.wait (h : CommHandler) (tDone : ℚ) : Option CommProfiler :=
  h.prof.finish tDone

/-- Result of an intercepted collective call: the synchronous branch
finishes the profiler immediately; the asynchronous branch returns a
`CommHandler`. -/
inductive CollResult where
  | done (p : Option CommProfiler)
  | pending (h : CommHandler)
deriving DecidableEq, Repr

/-- The session state visible right after the intercepted call returns
(post-`finish` for the synchronous branch, post-`new` for the
asynchronous branch whose handle has not been awaited). -/
def CollResult.session : CollResult → Option CommProfiler
  | .done p => p
  | .pending h => some h.prof

/-- The session state after the issued collective has fully completed:
for a synchronous call that is the call itself; for an asynchronous call
it is `handle.wait()` at time `tDone`. -/
def CollResult.awaited : CollResult → ℚ → Option CommProfiler
  | .done p, _ => p
  | .pending h, t => h.wait t

/-- Intercepted `all_reduce` wrapper (communication.py).  A tensor enters
only through `element_size()` and `numel()`; `P` is
`dist.get_world_size(group)`.  `comm_vol = 2*(P-1)/P * element_size * numel`,
then `profiler.new`; the synchronous branch calls `profiler.finish`
after the delegated torch op returns (time `tDone`), the asynchronous
branch returns a `CommHandler`. -/
def all_reduce (elemSize numel : ℕ) (P : ℕ) (asyncOp : Bool)
    (profiler : CommProfiler) (tIssue tDone : ℚ) : CollResult :=
  let correction : ℚ := 2 * ((P : ℚ) - 1) / (P : ℚ)
  let comm_vol : ℚ := correction * ((elemSize : ℚ) * (numel : ℚ))
  let p1 := profiler.new comm_vol tIssue
  if asyncOp then .pending ⟨p1⟩ else .done (p1.finish tDone)

/-- Intercepted `reduce_scatter` wrapper.  `input_list` is the list of
per-rank chunks, each entering as `(element_size, numel)`; the loop
`comm_vol += element_size*numel` over the list followed by
`comm_vol *= (P-1)/P` gives `comm_vol = (Σ bytes) * (P-1)/P`. -/
def reduce_scatter (input_list : List (ℕ × ℕ)) (P : ℕ) (asyncOp : Bool)
    (profiler : CommProfiler) (tIssue tDone : ℚ) : CollResult :=
  let correction : ℚ := ((P : ℚ) - 1) / (P : ℚ)
  let comm_vol : ℚ := ((input_list.map fun c => ((c.1 : ℚ) * (c.2 : ℚ))).sum) * correction
  let p1 := profiler.new comm_vol tIssue
  if asyncOp then .pending ⟨p1⟩ else .done (p1.finish tDone)

/-- Intercepted `all_gather` wrapper.  Identical volume accounting to
`reduce_scatter`, summed over `tensor_list`. -/
def all_gather (tensor_list : List (ℕ × ℕ)) (P : ℕ) (asyncOp : Bool)
    (profiler : CommProfiler) (tIssue tDone : ℚ) : CollResult :=
  let correction : ℚ := ((P : ℚ) - 1) / (P : ℚ)
  let comm_vol : ℚ := ((tensor_list.map fun c => ((c.1 : ℚ) * (c.2 : ℚ))).sum) * correction
  let p1 := profiler.new comm_vol tIssue
  if asyncOp then .pending ⟨p1⟩ else .done (p1.finish tDone)

/-- Intercepted `broadcast` wrapper.  `comm_vol = 1.0 * element_size * numel`
regardless of the group size (the group argument is only forwarded to the
underlying torch op). -/
def broadcast (elemSize numel : ℕ) (asyncOp : Bool)
    (profiler : CommProfiler) (tIssue tDone : ℚ) : CollResult :=
  let comm_vol : ℚ := 1 * ((elemSize : ℚ) * (numel : ℚ))
  let p1 := profiler.new comm_vol tIssue
  if asyncOp then .pending ⟨p1⟩ else .done (p1.finish tDone)

/-- Intercepted point-to-point `reduce` wrapper.  Same volume accounting
as `broadcast`: the full tensor byte size, independent of group size. -/
def reduce (elemSize numel : ℕ) (asyncOp : Bool)
    (profiler : CommProfiler) (tIssue tDone : ℚ) : CollResult :=
  let comm_vol : ℚ := 1 * ((elemSize : ℚ) * (numel : ℚ))
  let p1 := profiler.new comm_vol tIssue
  if asyncOp then .pending ⟨p1⟩ else .done (p1.finish tDone)

/-- A profiler bookkeeping event: `issue` is a call to
`CommProfiler.new` (volume and wall-clock time), `complete` a call to
`CommProfiler.finish` (wall-clock time). -/
inductive CommEvent where
  | issue (vol : ℚ) (t : ℚ)
  | complete (t : ℚ)
deriving DecidableEq, Repr

/-- One bookkeeping step of the session. -/
def CommProfiler.step (p : CommProfiler) : CommEvent → Option CommProfiler
  | .issue v t => some (p.new v t)
  | .complete t => p.finish t

/-- Run a sequence of bookkeeping events from a given session state;
`none` if any `finish` hits an empty window. -/
def runFrom (p : CommProfiler) : List CommEvent → Option CommProfiler
  | [] => some p
  | e :: es =>
    match p.step e with
    | none => none
    | some q => runFrom q es

/-- Number of `issue` events in a trace. -/
def issueCount (es : List CommEvent) : ℕ :=
  es.countP fun e => match e with | .issue _ _ => true | .complete _ => false

/-- Number of `complete` events in a trace. -/
def completeCount (es : List CommEvent) : ℕ :=
  es.countP fun e => match e with | .issue _ _ => false | .complete _ => true

/-- Checks that, starting from `k` in-flight operations, completions
never outnumber issues along any prefix of the trace. -/
def balancedFrom (k : ℤ) : List CommEvent → Bool
  | [] => true
  | .issue _ _ :: es => balancedFrom (k + 1) es
  | .complete _ :: es => decide (1 ≤ k) && balancedFrom (k - 1) es

/-- Modelled from the spec: `cubework.distributed.all_reduce` is not in
the provided sources; per §4.3/§6 it is a blocking SUM all-reduce over a
process group — every rank receives the sum of the per-rank values — and
it returns the reduced value without mutating its input.  A group is
modelled as the list of per-rank scalar values. -/
def dist_all_reduce (vals : List ℚ) : ℚ :=
  vals.sum

/-- Helper `_data_parallel_sum` (train.py) as seen by rank `rank` of a
data-parallel group whose per-rank tensors are `vals`
(`pm.DATA.world_size = vals.length`): if the group has more than one
process, SUM all-reduce; otherwise return the input unchanged. -/
def _data_parallel_sum (vals : List ℚ) (rank : ℕ) : ℚ :=
  let out := vals.getD rank 0
  if 1 < vals.length then dist_all_reduce vals else out

/-- Helper `_data_parallel_mean` (train.py): as `_data_parallel_sum`, but
the all-reduced sum is divided by the group size. -/
def _data_parallel_mean (vals : List ℚ) (rank : ℕ) : ℚ :=
  let out := vals.getD rank 0
  if 1 < vals.length then dist_all_reduce vals / (vals.length : ℚ) else out

/-- Local state of an `Accuracy` accumulator (metrics.py): two integer
scalar tensors. -/
structure Accuracy where
  total_correct : ℤ
  total_samples : ℤ
deriving DecidableEq, Repr

/-- `Accuracy.reset()` state: both counters zero. -/
def Accuracy.emptyState : Accuracy :=
  { total_correct := 0, total_samples := 0 }

/-- `Accuracy.forward(logits, targets, loss)`: the scheme-specific
`self.acc(logits, targets)` result enters the model as `correct`, the
batch as `batch_size = targets.size(0)`.  Adds both to the running
totals and returns `correct / batch_size` for the batch. -/
def Accuracy.forwardM (a : Accuracy) (correct batch_size : ℤ) : Accuracy × ℚ :=
  ({ total_correct := a.total_correct + correct,
     total_samples := a.total_samples + batch_size },
   (correct : ℚ) / (batch_size : ℚ))

/-- Fold a list of `(correct, batch_size)` forward calls into an
accumulator state. -/
def Accuracy.runForwards (a : Accuracy) (calls : List (ℤ × ℤ)) : Accuracy :=
  calls.foldl (fun s c => (s.forwardM c.1 c.2).1) a

/-- `Accuracy.value()` over a data-parallel group whose per-rank
accumulator states are `ranks`: all ranks SUM all-reduce the stacked
vector `[total_correct, total_samples]` (`dist_all_reduce` model above)
and each returns `reduced_correct / reduced_samples`.  The method body
contains no assignment to `self`, so the per-rank states are returned
unchanged. -/
def Accuracy.valueM (ranks : List Accuracy) : List ℚ × List Accuracy :=
  let c : ℤ := (ranks.map fun a => a.total_correct).sum
  let s : ℤ := (ranks.map fun a => a.total_samples).sum
  (ranks.map fun _ => (c : ℚ) / (s : ℚ), ranks)

/-- Local state of a `Perplexity` accumulator (metrics.py): a Python int
counter and a float scalar tensor. -/
structure Perplexity where
  cnt : ℕ
  total_loss : ℚ
deriving DecidableEq, Repr

/-- `Perplexity.reset()` state: `cnt = 0`, `total_loss = 0.0`. -/
def Perplexity.emptyState : Perplexity :=
  { cnt := 0, total_loss := 0 }

/-- `Perplexity.forward(logits, targets, loss)`: increments `cnt`, adds
`loss` to `total_loss`.  The source returns `torch.exp(loss)`; since the
real exponential is not a rational operation the model returns the
exponent `loss`, and all statements about returned perplexities are made
through `Real.exp` of the modelled exponent. -/
def Perplexity.forwardM (p : Perplexity) (loss : ℚ) : Perplexity × ℚ :=
  ({ cnt := p.cnt + 1, total_loss := p.total_loss + loss }, loss)

/-- Fold a list of per-batch losses into an accumulator state. -/
def Perplexity.runForwards (p : Perplexity) (losses : List ℚ) : Perplexity :=
  losses.foldl (fun s l => (s.forwardM l).1) p

/-- A torch float scalar: a finite value, or one of the IEEE non-finite
results that torch produces instead of raising on division by zero. -/
inductive TorchScalar where
  | val (q : ℚ)
  | nan
  | posinf
  | neginf
deriving DecidableEq, Repr

/-- Division of a torch float scalar by a Python `int`, with IEEE
semantics at zero: `0.0 / 0` is `nan`, `x / 0` is a signed infinity for
`x ≠ 0`, and no exception is ever raised. -/
def TorchScalar.divNat : TorchScalar → ℕ → TorchScalar
  | .val q, 0 => if q = 0 then .nan else if 0 < q then .posinf else .neginf
  | .val q, (n + 1) => .val (q / ((n : ℚ) + 1))
  | .nan, _ => .nan
  | .posinf, _ => .posinf
  | .neginf, _ => .neginf

/-- The exponent computed by `Perplexity.value()` on each rank of a
data-parallel group whose per-rank states are `ranks`
(`pm.DATA.world_size = ranks.length`):
`all_reduce(total_loss, DATA) / (cnt * world_size)` — a float tensor
divided by a Python `int`, hence `TorchScalar.divNat`.  The source then
returns `torch.exp` of this exponent (exp maps `nan` to `nan`).  The
method body contains no assignment to `self`, and the spec-modelled
`dist_all_reduce` does not mutate its input, so the per-rank states are
returned unchanged. -/
def Perplexity.valueExponentM (ranks : List Perplexity) : List TorchScalar × List Perplexity :=
  let reduced := (ranks.map fun p => p.total_loss).sum
  (ranks.map fun p => TorchScalar.divNat (.val reduced) (p.cnt * ranks.length), ranks)

/-- `Perplexity.value()` as a computation with an explicit exception
channel: every operation in the method body returns normally (torch
float division by zero yields `nan`/`inf` rather than raising, and the
body contains no assertion), so the computation is total and always
`.ok`. -/
def Perplexity.valueRun (ranks : List Perplexity) :
    Except String (List TorchScalar × List Perplexity) :=
  .ok (Perplexity.valueExponentM ranks)

lemma new_start_time_isSome (p : CommProfiler) (v t : ℚ) :
    ((p.new v t).start_time).isSome := by
  cases hs : p.start_time <;> simp [CommProfiler.new, hs]

lemma new_running_ops (p : CommProfiler) (v t : ℚ) :
    (p.new v t).running_ops = p.running_ops + 1 := rfl

lemma new_total_time (p : CommProfiler) (v t : ℚ) :
    (p.new v t).total_time = p.total_time := rfl

lemma new_finish_total_vol (p : CommProfiler) (v tI tD : ℚ) :
    Option.map CommProfiler.total_vol ((p.new v tI).finish tD) = some (p.total_vol + v) := by
  cases hs : p.start_time <;> by_cases h0 : p.running_ops = 0 <;>
    simp [CommProfiler.finish, CommProfiler.new, hs, h0]

/-- C1: `stop()` does restore the original collective entry points, and
the just-closed session of a fresh `reset(); start()` window holds the
accumulated triple `(0, 0, 0)` — but `stop()` itself returns `None`
(its body has no `return` statement), not that triple, so the caller
`_, comm_vol, comm_time = comm_profiler.stop()` in `train.py` fails to
unpack it. -/
theorem stop_restores_but_returns_none :
    (CommProfiler.stop (CommProfiler.reset CommProfiler.init)
        (CommProfiler.start (CommProfiler.reset CommProfiler.init)
          DistBindings.allOriginal)).1 = DistBindings.allOriginal
    ∧ (CommProfiler.stop (CommProfiler.reset CommProfiler.init)
        (CommProfiler.start (CommProfiler.reset CommProfiler.init)
          DistBindings.allOriginal)).2 = none
    ∧ CommProfiler.totals (CommProfiler.reset CommProfiler.init) = (0, 0, 0)
    ∧ unpackTriple (CommProfiler.stop (CommProfiler.reset CommProfiler.init)
        (CommProfiler.start (CommProfiler.reset CommProfiler.init)
          DistBindings.allOriginal)).2
      = Except.error "TypeError: cannot unpack non-iterable NoneType object" :=
  ⟨rfl, rfl, rfl, rfl⟩

/-- C3 counterexample: a `broadcast` of a 4-byte tensor issued in a
single-process group records 4 bytes of volume, not 0 — the
broadcast/point-to-point-reduce volume formula ignores the group size
entirely. -/
theorem broadcast_volume_nonzero_in_singleton_group :
    Option.map CommProfiler.total_vol
        ((broadcast 4 1 false CommProfiler.init 0 0).session) = some 4
    ∧ (4 : ℚ) ≠ 0 := by
  constructor
  · simp [broadcast, CollResult.session, CommProfiler.finish, CommProfiler.new,
      CommProfiler.init]
  · norm_num

/-- C3 amended: at group size 1, the all-reduce, reduce-scatter and
all-gather volume formulas record 0 additional volume, while broadcast
and point-to-point reduce record the full tensor byte size
`element_size * numel` regardless of group size. -/
theorem volume_formulas_at_group_size_one (elemSize numel : ℕ)
    (chunks : List (ℕ × ℕ)) (p : CommProfiler) (tIssue tDone : ℚ) :
    Option.map CommProfiler.total_vol
        ((all_reduce elemSize numel 1 false p tIssue tDone).session) = some p.total_vol
    ∧ Option.map CommProfiler.total_vol
        ((reduce_scatter chunks 1 false p tIssue tDone).session) = some p.total_vol
    ∧ Option.map CommProfiler.total_vol
        ((all_gather chunks 1 false p tIssue tDone).session) = some p.total_vol
    ∧ Option.map CommProfiler.total_vol
        ((broadcast elemSize numel false p tIssue tDone).session)
        = some (p.total_vol + ((elemSize * numel : ℕ) : ℚ))
    ∧ Option.map CommProfiler.total_vol
        ((reduce elemSize numel false p tIssue tDone).session)
        = some (p.total_vol + ((elemSize * numel : ℕ) : ℚ)) := by
  refine ⟨?_, ?_, ?_, ?_, ?_⟩ <;>
    simp [all_reduce, reduce_scatter, all_gather, broadcast, reduce,
      CollResult.session, new_finish_total_vol]

/-- C2: for every group size `P ≥ 1`, the volume recorded by the
profiler for an intercepted collective equals the throughput model:
`2*(P-1)/P * B` for all-reduce on a `B`-byte tensor, `(P-1)/P * Σ bᵢ`
for reduce-scatter and all-gather over per-rank chunks of `bᵢ` bytes,
and `B` for broadcast and point-to-point reduce. -/
theorem recorded_volume_formulas (P elemSize numel : ℕ) (chunks : List (ℕ × ℕ))
    (p : CommProfiler) (tIssue tDone : ℚ) (hP : 1 ≤ P) :
    Option.map CommProfiler.total_vol
        ((all_reduce elemSize numel P false p tIssue tDone).session)
      = some (p.total_vol + 2 * ((P : ℚ) - 1) / (P : ℚ) * ((elemSize * numel : ℕ) : ℚ))
    ∧ Option.map CommProfiler.total_vol
        ((reduce_scatter chunks P false p tIssue tDone).session)
      = some (p.total_vol + ((P : ℚ) - 1) / (P : ℚ)
          * ((chunks.map fun c => ((c.1 * c.2 : ℕ) : ℚ)).sum))
    ∧ Option.map CommProfiler.total_vol
        ((all_gather chunks P false p tIssue tDone).session)
      = some (p.total_vol + ((P : ℚ) - 1) / (P : ℚ)
          * ((chunks.map fun c => ((c.1 * c.2 : ℕ) : ℚ)).sum))
    ∧ Option.map CommProfiler.total_vol
        ((broadcast elemSize numel false p tIssue tDone).session)
      = some (p.total_vol + ((elemSize * numel : ℕ) : ℚ))
    ∧ Option.map CommProfiler.total_vol
        ((reduce elemSize numel false p tIssue tDone).session)
      = some (p.total_vol + ((elemSize * numel : ℕ) : ℚ)) := by
  have hmap : (chunks.map fun c => ((c.1 : ℚ) * (c.2 : ℚ)))
      = chunks.map fun c => ((c.1 * c.2 : ℕ) : ℚ) := by
    push_cast
    rfl
  refine ⟨?_, ?_, ?_, ?_, ?_⟩
  · simp only [all_reduce, CollResult.session, Bool.false_eq_true, if_false]
    rw [new_finish_total_vol]
    push_cast
    ring_nf
  · simp only [reduce_scatter, CollResult.session, Bool.false_eq_true, if_false]
    rw [new_finish_total_vol, hmap]
    exact congrArg some (by ring)
  · simp only [all_gather, CollResult.session, Bool.false_eq_true, if_false]
    rw [new_finish_total_vol, hmap]
    exact congrArg some (by ring)
  · simp only [broadcast, CollResult.session, Bool.false_eq_true, if_false]
    rw [new_finish_total_vol]
    push_cast
    ring_nf
  · simp only [reduce, CollResult.session, Bool.false_eq_true, if_false]
    rw [new_finish_total_vol]
    push_cast
    ring_nf

/-- Witness for C2: an all-reduce of a 1024-element tensor of 4-byte
elements in a group of 4 processes records `2*(3/4)*4096 = 6144` bytes. -/
theorem recorded_volume_formulas_witness :
    Option.map CommProfiler.total_vol
        ((all_reduce 4 1024 4 false CommProfiler.init 0 1).session) = some 6144 := by
  have h := (recorded_volume_formulas 4 4 1024 [] CommProfiler.init 0 1 (by norm_num)).1
  rw [h]
  norm_num [CommProfiler.init]

/-- C5: for each of the five intercepted collectives, issuing the call
asynchronously and calling `wait()` exactly once on the returned handle
leaves the profiling session in exactly the state produced by the
synchronous call on the same payload; issuing asynchronously and never
calling `wait()` leaves `running_ops` strictly positive. -/
theorem async_wait_equals_sync (P elemSize numel : ℕ) (chunks : List (ℕ × ℕ))
    (p : CommProfiler) (tIssue tDone : ℚ) (hp : 0 ≤ p.running_ops) :
    ((all_reduce elemSize numel P true p tIssue tDone).awaited tDone
      = (all_reduce elemSize numel P false p tIssue tDone).session)
    ∧ ((reduce_scatter chunks P true p tIssue tDone).awaited tDone
      = (reduce_scatter chunks P false p tIssue tDone).session)
    ∧ ((all_gather chunks P true p tIssue tDone).awaited tDone
      = (all_gather chunks P false p tIssue tDone).session)
    ∧ ((broadcast elemSize numel true p tIssue tDone).awaited tDone
      = (broadcast elemSize numel false p tIssue tDone).session)
    ∧ ((reduce elemSize numel true p tIssue tDone).awaited tDone
      = (reduce elemSize numel false p tIssue tDone).session)
    ∧ (∀ q, (all_reduce elemSize numel P true p tIssue tDone).session = some q →
        0 < q.running_ops)
    ∧ (∀ q, (reduce_scatter chunks P true p tIssue tDone).session = some q →
        0 < q.running_ops)
    ∧ (∀ q, (all_gather chunks P true p tIssue tDone).session = some q →
        0 < q.running_ops)
    ∧ (∀ q, (broadcast elemSize numel true p tIssue tDone).session = some q →
        0 < q.running_ops)
    ∧ (∀ q, (reduce elemSize numel true p tIssue tDone).session = some q →
        0 < q.running_ops) := by
  refine ⟨rfl, rfl, rfl, rfl, rfl, ?_, ?_, ?_, ?_, ?_⟩ <;>
    · intro q hq
      simp only [all_reduce, reduce_scatter, all_gather, broadcast, reduce,
        CollResult.session, if_true, Option.some_inj] at hq
      rw [← hq, new_running_ops]
      omega

/-- Witness for C5: a concrete async all-reduce awaited once matches the
synchronous profiler state for the same payload. -/
theorem async_wait_equals_sync_witness :
    (all_reduce 4 2 2 true CommProfiler.init 0 1).awaited 1
      = (all_reduce 4 2 2 false CommProfiler.init 0 1).session :=
  (async_wait_equals_sync 2 4 2 [] CommProfiler.init 0 1 (by decide)).1

/-- C6: with a data-parallel group of size 1, `_data_parallel_sum` and
`_data_parallel_mean` both return the input unchanged; and for any group
size `P ≥ 1` with the value `x` uniform across ranks, the mean helper
equals the sum helper divided by `P`, on every rank. -/
theorem data_parallel_mean_sum_relation :
    (∀ x : ℚ, _data_parallel_sum [x] 0 = x ∧ _data_parallel_mean [x] 0 = x)
    ∧ ∀ (P : ℕ) (x : ℚ) (i : ℕ), 1 ≤ P → i < P →
        _data_parallel_mean (List.replicate P x) i
          = _data_parallel_sum (List.replicate P x) i / (P : ℚ) := by
  constructor
  · intro x
    constructor <;> simp [_data_parallel_sum, _data_parallel_mean]
  · intro P x i hP hi
    by_cases h1 : 1 < P
    · simp [_data_parallel_mean, _data_parallel_sum, h1]
    · have hP1 : P = 1 := by omega
      have hi0 : i = 0 := by omega
      subst hP1
      subst hi0
      simp [_data_parallel_mean, _data_parallel_sum]

/-- Witness for C6: on a 3-rank group with the uniform value 7, the mean
helper is the sum helper divided by 3. -/
theorem data_parallel_mean_sum_relation_witness :
    _data_parallel_mean (List.replicate 3 (7 : ℚ)) 1
      = _data_parallel_sum (List.replicate 3 (7 : ℚ)) 1 / ((3 : ℕ) : ℚ) :=
  data_parallel_mean_sum_relation.2 3 7 1 (by norm_num) (by norm_num)

/-- C10: `value()` of both metric accumulators leaves every per-rank local
state unchanged, and calling it twice in succession returns the same
result as calling it once — no double-counting. -/
theorem metric_value_read_only (ra : List Accuracy) (rp : List Perplexity) :
    (Accuracy.valueM ra).2 = ra
    ∧ (Perplexity.valueExponentM rp).2 = rp
    ∧ (Accuracy.valueM ((Accuracy.valueM ra).2)).1 = (Accuracy.valueM ra).1
    ∧ (Perplexity.valueExponentM ((Perplexity.valueExponentM rp).2)).1
        = (Perplexity.valueExponentM rp).1 :=
  ⟨rfl, rfl, rfl, rfl⟩

lemma accuracy_runForwards_totals (calls : List (ℤ × ℤ)) :
    ∀ a : Accuracy,
      (Accuracy.runForwards a calls).total_correct
          = a.total_correct + (calls.map Prod.fst).sum
      ∧ (Accuracy.runForwards a calls).total_samples
          = a.total_samples + (calls.map Prod.snd).sum := by
  induction calls with
  | nil => intro a; simp [Accuracy.runForwards]
  | cons c cs ih =>
    intro a
    have h := ih (a.forwardM c.1 c.2).1
    simp only [Accuracy.runForwards, List.foldl_cons] at h ⊢
    rw [h.1, h.2]
    simp [Accuracy.forwardM]
    constructor <;> ring

lemma perplexity_runForwards_totals (losses : List ℚ) :
    ∀ p : Perplexity,
      (Perplexity.runForwards p losses).cnt = p.cnt + losses.length
      ∧ (Perplexity.runForwards p losses).total_loss = p.total_loss + losses.sum := by
  induction losses with
  | nil => intro p; simp [Perplexity.runForwards]
  | cons l ls ih =>
    intro p
    have h := ih (p.forwardM l).1
    simp only [Perplexity.runForwards, List.foldl_cons] at h ⊢
    rw [h.1, h.2]
    simp [Perplexity.forwardM]
    constructor
    · omega
    · ring

lemma torchScalar_divNat_pos (q : ℚ) (n : ℕ) (h : 1 ≤ n) :
    TorchScalar.divNat (.val q) n = .val (q / (n : ℚ)) := by
  cases n with
  | zero => omega
  | succ m => simp [TorchScalar.divNat]

/-- C7: `value()` of an `Accuracy` accumulator SUM-reduces the stacked
`[total_correct, total_samples]` vector over the data-parallel group and
every rank receives the global ratio `Σ correct / Σ samples`; each
accumulator state of each rank is the fold of its own `forward()` calls over
the reset state. -/
theorem accuracy_value_global_ratio (histories : List (List (ℤ × ℤ)))
    (hs : ((histories.map fun hst => (hst.map Prod.snd).sum).sum : ℤ) ≠ 0) :
    (Accuracy.valueM (histories.map fun hst =>
        Accuracy.runForwards Accuracy.emptyState hst)).1
      = histories.map fun _ =>
          ((((histories.map fun hst => (hst.map Prod.fst).sum).sum : ℤ) : ℚ)
            / (((histories.map fun hst => (hst.map Prod.snd).sum).sum : ℤ) : ℚ)) := by
  clear hs
  unfold Accuracy.valueM
  dsimp only
  have hc : ((histories.map fun hst =>
        Accuracy.runForwards Accuracy.emptyState hst).map fun a => a.total_correct)
      = histories.map fun hst => (hst.map Prod.fst).sum := by
    rw [List.map_map]
    refine List.map_congr_left fun hst _ => ?_
    have := (accuracy_runForwards_totals hst Accuracy.emptyState).1
    simpa [Accuracy.emptyState] using this
  have hsm : ((histories.map fun hst =>
        Accuracy.runForwards Accuracy.emptyState hst).map fun a => a.total_samples)
      = histories.map fun hst => (hst.map Prod.snd).sum := by
    rw [List.map_map]
    refine List.map_congr_left fun hst _ => ?_
    have := (accuracy_runForwards_totals hst Accuracy.emptyState).2
    simpa [Accuracy.emptyState] using this
  rw [hc, hsm, List.map_map]
  rfl

/-- Witness for C7: two ranks, rank 0 with 3 correct of 4 samples and
rank 1 with 1 correct of 4 samples — `value()` returns `1/2` on both
ranks. -/
theorem accuracy_value_global_ratio_witness :
    (Accuracy.valueM [Accuracy.runForwards Accuracy.emptyState [(3, 4)],
        Accuracy.runForwards Accuracy.emptyState [(1, 4)]]).1
      = [(1 : ℚ) / 2, 1 / 2] := by
  have h := accuracy_value_global_ratio [[(3, 4)], [(1, 4)]] (by decide)
  simp only [List.map_cons, List.map_nil] at h
  rw [h]
  norm_num

/-- C8: `value()` of a `Perplexity` accumulator SUM-reduces `total_loss`
across the data-parallel group of size `P = histories.length`, divides
by the local `cnt` (the number of `forward()` calls, i.e. the length of
the loss history of the rank) times `P`, and returns `torch.exp` of that
exponent; on any rank with at least one `forward()` the exponent is the
exact rational `Σ losses / (cnt * P)`. -/
theorem perplexity_value_formula (histories : List (List ℚ)) :
    ((Perplexity.valueExponentM (histories.map fun ls =>
        Perplexity.runForwards Perplexity.emptyState ls)).1
      = histories.map fun ls =>
          TorchScalar.divNat (.val (histories.map List.sum).sum)
            (ls.length * histories.length))
    ∧ ∀ ls ∈ histories, 1 ≤ ls.length →
        TorchScalar.divNat (.val (histories.map List.sum).sum)
            (ls.length * histories.length)
          = .val ((histories.map List.sum).sum
              / ((ls.length * histories.length : ℕ) : ℚ)) := by
  constructor
  · unfold Perplexity.valueExponentM
    dsimp only
    have hred : ((histories.map fun ls =>
          Perplexity.runForwards Perplexity.emptyState ls).map fun p => p.total_loss)
        = histories.map List.sum := by
      rw [List.map_map]
      refine List.map_congr_left fun ls _ => ?_
      have := (perplexity_runForwards_totals ls Perplexity.emptyState).2
      simpa [Perplexity.emptyState] using this
    rw [hred, List.length_map, List.map_map]
    refine List.map_congr_left fun ls _ => ?_
    have hcnt := (perplexity_runForwards_totals ls Perplexity.emptyState).1
    simp only [Function.comp_apply, Perplexity.emptyState] at hcnt ⊢
    rw [hcnt]
    norm_num
  · intro ls hls h1
    have hlen : 1 ≤ histories.length := List.length_pos.mpr (by
      rintro rfl
      simp at hls)
    exact torchScalar_divNat_pos _ _ (Nat.one_le_iff_ne_zero.mpr (by positivity))

/-- Witness for C8: two `forward()` calls with losses 1 and 2 on a
single-process group give the exponent `3/2`, so `value()` returns
`exp(3/2) = exp(1.5)`. -/
theorem perplexity_value_formula_witness :
    (Perplexity.valueExponentM [Perplexity.runForwards Perplexity.emptyState [1, 2]]).1
      = [TorchScalar.val (3 / 2)]
    ∧ Real.exp ((3 : ℚ) / 2) = Real.exp 1.5 := by
  constructor
  · have h1 := (perplexity_value_formula [[1, 2]]).1
    have h2 := (perplexity_value_formula [[1, 2]]).2 [1, 2] (by simp) (by norm_num)
    simp only [List.map_cons, List.map_nil] at h1 h2
    rw [h1, h2]
    norm_num
  · norm_num

/-- C9 counterexample: `value()` on a never-updated `Perplexity`
accumulator (single-process group, `cnt = 0`) does not fail: the float
tensor division `total_loss / (cnt * world_size)` is `0.0 / 0`, which
torch evaluates to `nan` without raising, so the call returns normally
with a `nan` result. -/
theorem perplexity_value_before_forward_is_nan :
    Perplexity.valueRun [Perplexity.emptyState]
      = Except.ok ([TorchScalar.nan], [Perplexity.emptyState]) := by
  simp [Perplexity.valueRun, Perplexity.valueExponentM, Perplexity.emptyState,
    TorchScalar.divNat]

/-- C9 amended: calling `value()` before any `forward()` on a group of
any size `P ≥ 1` returns normally (no exception is surfaced) with the
silent poisoned value `nan` on every rank, because `cnt * world_size = 0`
and float division by zero yields `nan` rather than failing fast. -/
theorem perplexity_value_before_forward_silent_nan (P : ℕ) (hP : 1 ≤ P) :
    Perplexity.valueRun (List.replicate P Perplexity.emptyState)
      = Except.ok (List.replicate P TorchScalar.nan,
          List.replicate P Perplexity.emptyState) := by
  clear hP
  unfold Perplexity.valueRun Perplexity.valueExponentM
  dsimp only
  congr 1
  rw [List.map_replicate]
  congr 1
  simp [Perplexity.emptyState, TorchScalar.divNat]

/-- Witness for the amended C9 statement at `P = 2`. -/
theorem perplexity_value_before_forward_silent_nan_witness :
    Perplexity.valueRun (List.replicate 2 Perplexity.emptyState)
      = Except.ok (List.replicate 2 TorchScalar.nan,
          List.replicate 2 Perplexity.emptyState) :=
  perplexity_value_before_forward_silent_nan 2 (by norm_num)

/-- The session invariant maintained across a profiling window: no
negative in-flight count, and a window-start timestamp is present
exactly while at least one collective is in flight. -/
def ProfInv (p : CommProfiler) : Prop :=
  0 ≤ p.running_ops ∧ (p.start_time.isSome ↔ p.running_ops ≠ 0)

lemma finish_of_running_ne_one (p : CommProfiler) (t : ℚ) (h : p.running_ops ≠ 1) :
    p.finish t = some { p with running_ops := p.running_ops - 1 } := by
  unfold CommProfiler.finish
  rw [if_neg (by omega)]

lemma finish_of_running_one (p : CommProfiler) (t s : ℚ)
    (h : p.running_ops = 1) (hs : p.start_time = some s) :
    p.finish t = some { p with
      running_ops := 0
      total_time := p.total_time + (t - s)
      start_time := none } := by
  unfold CommProfiler.finish
  rw [if_pos (by omega), hs]
  simp [h]

lemma profInv_new (p : CommProfiler) (v t : ℚ) (hp : 0 ≤ p.running_ops) :
    ProfInv (p.new v t) := by
  refine ⟨by rw [new_running_ops]; omega, ?_⟩
  rw [new_running_ops]
  simp [new_start_time_isSome p v t]
  omega

lemma runFrom_balanced (es : List CommEvent) :
    ∀ p : CommProfiler, ProfInv p → balancedFrom p.running_ops es = true →
      ∃ q, runFrom p es = some q ∧ ProfInv q ∧
        q.running_ops = p.running_ops + (issueCount es : ℤ) - (completeCount es : ℤ) := by
  induction es with
  | nil =>
    intro p hInv _
    exact ⟨p, rfl, hInv, by simp [issueCount, completeCount]⟩
  | cons e es ih =>
    intro p hInv hbal
    cases e with
    | issue v t =>
      have hbal2 : balancedFrom (p.new v t).running_ops es = true := by
        rw [new_running_ops]
        simpa [balancedFrom] using hbal
      obtain ⟨q, hq, hqI, hqr⟩ := ih (p.new v t) (profInv_new p v t hInv.1) hbal2
      refine ⟨q, ?_, hqI, ?_⟩
      · simpa [runFrom, CommProfiler.step] using hq
      · rw [hqr, new_running_ops]
        simp [issueCount, completeCount, List.countP_cons]
        ring
    | complete t =>
      simp only [balancedFrom, Bool.and_eq_true, decide_eq_true_eq] at hbal
      obtain ⟨h1, hbal2⟩ := hbal
      have hsome : p.start_time.isSome := hInv.2.mpr (by omega)
      obtain ⟨s, hs⟩ := Option.isSome_iff_exists.mp hsome
      by_cases hone : p.running_ops = 1
      · have hfin := finish_of_running_one p t s hone hs
        have hInv2 : ProfInv { p with
            running_ops := 0
            total_time := p.total_time + (t - s)
            start_time := none } := by
          constructor
          · simp
          · simp
        have hbal3 : balancedFrom (0 : ℤ) es = true := by
          rw [← show p.running_ops - 1 = 0 by omega]
          exact hbal2
        obtain ⟨q, hq, hqI, hqr⟩ := ih _ hInv2 (by simpa using hbal3)
        refine ⟨q, ?_, hqI, ?_⟩
        · simp only [runFrom, CommProfiler.step, hfin]
          exact hq
        · rw [hqr]
          simp [issueCount, completeCount, List.countP_cons]
          omega
      · have hfin := finish_of_running_ne_one p t hone
        have hInv2 : ProfInv { p with running_ops := p.running_ops - 1 } := by
          constructor
          · simp
            omega
          · simp [hs]
            omega
        obtain ⟨q, hq, hqI, hqr⟩ := ih _ hInv2 (by simpa using hbal2)
        refine ⟨q, ?_, hqI, ?_⟩
        · simp only [runFrom, CommProfiler.step, hfin]
          exact hq
        · rw [hqr]
          simp [issueCount, completeCount, List.countP_cons]
          omega

/-- C4: starting from the reset state, for every sequence of issue/
completion events in which completions never outnumber issues, the run
succeeds and the window-start timestamp is present exactly while
`running_ops ≠ 0` (with `running_ops` equal to issues minus
completions); the timestamp is stamped exactly at a 0→1 transition of
`running_ops` and cleared exactly when it returns to 0; `total_time`
accumulates only at completions that return `running_ops` to 0; and a
nested pair of collectives inside one busy span is timed as the single
outer span `t3 - t0`, with no double counting. -/
theorem profiler_window_invariant :
    (∀ es : List CommEvent, balancedFrom 0 es = true →
      ∃ q, runFrom CommProfiler.init es = some q
        ∧ (q.start_time.isSome ↔ q.running_ops ≠ 0)
        ∧ q.running_ops = (issueCount es : ℤ) - (completeCount es : ℤ))
    ∧ (∀ (p : CommProfiler) (v t : ℚ), p.start_time = none →
        (p.new v t).start_time = some t)
    ∧ (∀ (p : CommProfiler) (v t s : ℚ), p.start_time = some s →
        (p.new v t).start_time = some s)
    ∧ (∀ (p : CommProfiler) (v t : ℚ), (p.new v t).total_time = p.total_time)
    ∧ (∀ (p q : CommProfiler) (t : ℚ), p.finish t = some q →
        q.running_ops = 0 → q.start_time = none)
    ∧ (∀ (p q : CommProfiler) (t : ℚ), p.finish t = some q →
        q.running_ops ≠ 0 → q.start_time = p.start_time)
    ∧ (∀ (p q : CommProfiler) (t : ℚ), p.running_ops ≠ 1 → p.finish t = some q →
        q.total_time = p.total_time)
    ∧ (∀ v0 v1 t0 t1 t2 t3 : ℚ,
        Option.map CommProfiler.total_time
            (runFrom CommProfiler.init
              [.issue v0 t0, .issue v1 t1, .complete t2, .complete t3])
          = some (t3 - t0)) := by
  refine ⟨?_, ?_, ?_, ?_, ?_, ?_, ?_, ?_⟩
  · intro es hbal
    obtain ⟨q, hq, hqI, hqr⟩ := runFrom_balanced es CommProfiler.init
      ⟨le_refl 0, by simp [CommProfiler.init]⟩ (by simpa [CommProfiler.init] using hbal)
    exact ⟨q, hq, hqI.2, by simpa [CommProfiler.init] using hqr⟩
  · intro p v t h
    simp [CommProfiler.new, h]
  · intro p v t s h
    simp [CommProfiler.new, h]
  · intro p v t
    rfl
  · intro p q t hfin hq0
    by_cases hone : p.running_ops = 1
    · rcases hs : p.start_time with - | s
      · unfold CommProfiler.finish at hfin
        rw [if_pos (by omega), hs] at hfin
        exact absurd hfin (by simp)
      · rw [finish_of_running_one p t s hone hs] at hfin
        rw [← Option.some_inj.mp hfin]
    · rw [finish_of_running_ne_one p t hone] at hfin
      rw [← Option.some_inj.mp hfin] at hq0 ⊢
      simp at hq0
      omega
  · intro p q t hfin hqne
    by_cases hone : p.running_ops = 1
    · rcases hs : p.start_time with - | s
      · unfold CommProfiler.finish at hfin
        rw [if_pos (by omega), hs] at hfin
        exact absurd hfin (by simp)
      · rw [finish_of_running_one p t s hone hs] at hfin
        rw [← Option.some_inj.mp hfin] at hqne
        simp at hqne
    · rw [finish_of_running_ne_one p t hone] at hfin
      rw [← Option.some_inj.mp hfin]
  · intro p q t hone hfin
    rw [finish_of_running_ne_one p t hone] at hfin
    rw [← Option.some_inj.mp hfin]
  · intro v0 v1 t0 t1 t2 t3
    simp [runFrom, CommProfiler.step, CommProfiler.new, CommProfiler.finish,
      CommProfiler.init]

/-- Witness for C4: the two-event trace issue-then-complete is balanced
and runs to completion from the reset state, and issuing into an idle
session stamps the window start. -/
theorem profiler_window_invariant_witness :
    Option.isSome (runFrom CommProfiler.init
        [CommEvent.issue 4 0, CommEvent.complete 1]) = true
    ∧ (CommProfiler.new CommProfiler.init 4 0).start_time = some 0 := by
  constructor
  · obtain ⟨q, hq, -, -⟩ := profiler_window_invariant.1
      [CommEvent.issue 4 0, CommEvent.complete 1] (by decide)
    rw [hq]
    rfl
  · exact profiler_window_invariant.2.1 CommProfiler.init 4 0 rfl
